import Mathlib

/-!
Verification of the 2D computational-geometry core of the
`computer-graphics-2022.2` repository (orientation predicates, segment
intersection, point-in-polygon tests, convex-polygon intersection, and the
anchor/drag model of the interactive demos).

Points are modelled as pairs of rationals (exact arithmetic standing in for
JS numbers); polygons as lists of points with cyclic indexing.  The
floating-point special values that matter for the degenerate
`distToSegment` case (division by zero producing `Infinity`, `0 * Infinity`
producing `NaN`) are modelled by an explicit `JsNum` type.
-/

/-- A 2D point (or vector): a pair of rational coordinates. -/
abbrev Point : Type := ℚ × ℚ

/-- JS `Math.sign`: `-1`, `0` or `1` according to the sign of the argument. -/
def sgn (q : ℚ) : ℤ := if q < 0 then -1 else if 0 < q then 1 else 0

/-- The 3×3 determinant `mat3.determinant([1,a0,a1,1,b0,b1,1,c0,c1])`
computed by the cofactor expansion gl-matrix uses (column-major layout). -/
def det3 (a b c : Point) : ℚ :=
  1 * (c.2 * b.1 - b.2 * c.1) + a.1 * (-c.2 * 1 + b.2 * 1) + a.2 * (c.1 * 1 - b.1 * 1)

/-- The planar cross product `(b - a) × (c - a)`. -/
def cross (a b c : Point) : ℚ :=
  (b.1 - a.1) * (c.2 - a.2) - (b.2 - a.2) * (c.1 - a.1)

/-- Source `orient(a, b, c)` from `utils/2d.js` (and the identical `glvec2.orient`):
the sign of the homogeneous 3×3 determinant. -/
def orient (a b c : Point) : ℤ := sgn (det3 a b c)

/-- Source `segmentsIntersect` from `utils/2d.js`: both orientation differences
have absolute value at least 1. -/
def segmentsIntersect (a b c d : Point) : Bool :=
  decide (1 ≤ |orient a b c - orient a b d|) &&
  decide (1 ≤ |orient c d a - orient c d b|)

/-- Source `segmentsIntersectProper` from `utils/2d.js`: both orientation
differences have absolute value exactly 2. -/
def segmentsIntersectProper (a b c d : Point) : Bool :=
  decide (|orient a b c - orient a b d| = 2) &&
  decide (|orient c d a - orient c d b| = 2)

/-- Source `glvec2.segmentsIntersect` from `PolygonIntersection.js`: plain
inequality of the orientation values on both sides. -/
def glSegmentsIntersect (a b c d : Point) : Bool :=
  decide (orient a b c ≠ orient a b d) &&
  decide (orient c d a ≠ orient c d b)

/-- Cyclic vertex access: `poly[i % poly.length]` (all polygon loops in the
source index vertices modulo the length). -/
def vtx (P : List Point) (i : ℕ) : Point := P.getD (i % P.length) (0, 0)

/-- The degeneracy guard of `pointInConvexPoly`: some later vertex shares
vertex 0's x-coordinate and some later vertex shares its y-coordinate. -/
def picGuard (P : List Point) : Bool :=
  ((List.range (P.length - 1)).any fun i => decide ((vtx P 0).1 = (vtx P (i+1)).1)) &&
  ((List.range (P.length - 1)).any fun i => decide ((vtx P 0).2 = (vtx P (i+1)).2))

/-- Source `pointInConvexPoly(p, poly)` from `utils/2d.js`: false if the guard
fires, otherwise true iff every edge orientation `orient(poly[i],
poly[(i+1)%n], p)` (for `i = 1 .. n-1`) equals the reference orientation
`orient(poly[0], poly[1], p)`. -/
def pointInConvexPoly (p : Point) (P : List Point) : Bool :=
  if picGuard P then false
  else
    (List.range (P.length - 1)).all fun i =>
      decide (orient (vtx P (i+1)) (vtx P (i+2)) p = orient (vtx P 0) (vtx P 1) p)

/-- Inner loop of `convexPolysIntersect` (edges of `poly2` against one edge
`p-q` of `poly`): `none` signals the early `return true` on a segment
intersection; otherwise returns the number of `points1` increments
(vertices `poly2[j]` inside `poly`). -/
def cpiInner (P Q : List Point) (p q : Point) : List ℕ → Option ℕ
  | [] => some 0
  | j :: js =>
    if glSegmentsIntersect p q (vtx Q j) (vtx Q (j + 1)) then none
    else
      match cpiInner P Q p q js with
      | none => none
      | some c => some ((if pointInConvexPoly (vtx Q j) P then 1 else 0) + c)

/-- Outer loop of `convexPolysIntersect`: accumulates `points1` and
`points2`; `none` signals the early `return true`. -/
def cpiOuter (P Q : List Point) : List ℕ → Option (ℕ × ℕ)
  | [] => some (0, 0)
  | i :: is =>
    match cpiInner P Q (vtx P i) (vtx P (i + 1)) (List.range Q.length) with
    | none => none
    | some c1 =>
      match cpiOuter P Q is with
      | none => none
      | some d =>
        some (c1 + d.1, (if pointInConvexPoly (vtx P i) Q then 1 else 0) + d.2)

/-- Source `convexPolysIntersect(poly, poly2)` from `trab02/PolygonIntersection.js`
(and the identical copy in the rectangle/circle demo): early `return true`
on any intersecting edge pair, otherwise `points1 >= 3 || points2 >= 3`. -/
def convexPolysIntersect (P Q : List Point) : Bool :=
  match cpiOuter P Q (List.range P.length) with
  | none => true
  | some c => decide (3 ≤ c.1) || decide (3 ≤ c.2)

/-- One iteration of the `pointInPoly` crossing loop, as a function of the
previous vertex, the current vertex `q`, the next vertex and the query
point: contributes 1 to the crossing count or 0. -/
def pipTerm (p prev q next : Point) : ℕ :=
  let yOr := sgn (q.2 - p.2)
  let prevYOr := sgn (prev.2 - p.2)
  if 1 ≤ |yOr - prevYOr| then
    if |orient prev q p - orient prev q (max prev.1 q.1 * 2, p.2)| = 2 then
      if yOr = 0 then
        if |sgn (next.2 - p.2) - prevYOr| = 2 then 1 else 0
      else
        if prevYOr ≠ 0 then 1 else 0
    else 0
  else 0

/-- The crossing count accumulated by `pointInPoly(p, poly)`: the loop
variable `prev` always holds the predecessor of `poly[i]` (cyclically), so
the count is the sum of the per-vertex contributions. -/
def pipCount (p : Point) (P : List Point) : ℕ :=
  ∑ i ∈ Finset.range P.length,
    pipTerm p (vtx P (i + P.length - 1)) (vtx P i) (vtx P (i + 1))

/-- Source `pointInPoly(p, poly)` from `utils/2d.js`: true iff the crossing count
is odd. -/
def pointInPoly (p : Point) (P : List Point) : Bool :=
  decide (pipCount p P % 2 = 1)

/-- A JS number in the exact model: a finite rational, one of the two
infinities, or `NaN`.  (Finite values that exact rational arithmetic cannot
represent — irrational square roots — are modelled by `none` at the
`Option JsNum` level.) -/
inductive JsNum where
  | num : ℚ → JsNum
  | pinf : JsNum
  | ninf : JsNum
  | nan : JsNum
deriving DecidableEq

/-- IEEE addition on the special-value model. -/
def addJ : JsNum → JsNum → JsNum
  | JsNum.nan, _ => JsNum.nan
  | _, JsNum.nan => JsNum.nan
  | JsNum.num a, JsNum.num b => JsNum.num (a + b)
  | JsNum.pinf, JsNum.ninf => JsNum.nan
  | JsNum.ninf, JsNum.pinf => JsNum.nan
  | JsNum.pinf, _ => JsNum.pinf
  | _, JsNum.pinf => JsNum.pinf
  | JsNum.ninf, _ => JsNum.ninf
  | _, JsNum.ninf => JsNum.ninf

/-- IEEE subtraction on the special-value model. -/
def subJ : JsNum → JsNum → JsNum
  | JsNum.nan, _ => JsNum.nan
  | _, JsNum.nan => JsNum.nan
  | JsNum.num a, JsNum.num b => JsNum.num (a - b)
  | JsNum.pinf, JsNum.pinf => JsNum.nan
  | JsNum.ninf, JsNum.ninf => JsNum.nan
  | JsNum.pinf, _ => JsNum.pinf
  | JsNum.ninf, _ => JsNum.ninf
  | JsNum.num _, JsNum.pinf => JsNum.ninf
  | JsNum.num _, JsNum.ninf => JsNum.pinf

/-- IEEE multiplication on the special-value model (`0 * ±∞ = NaN`). -/
def mulJ : JsNum → JsNum → JsNum
  | JsNum.nan, _ => JsNum.nan
  | _, JsNum.nan => JsNum.nan
  | JsNum.num a, JsNum.num b => JsNum.num (a * b)
  | JsNum.num a, JsNum.pinf =>
    if 0 < a then JsNum.pinf else if a < 0 then JsNum.ninf else JsNum.nan
  | JsNum.num a, JsNum.ninf =>
    if 0 < a then JsNum.ninf else if a < 0 then JsNum.pinf else JsNum.nan
  | JsNum.pinf, JsNum.num b =>
    if 0 < b then JsNum.pinf else if b < 0 then JsNum.ninf else JsNum.nan
  | JsNum.ninf, JsNum.num b =>
    if 0 < b then JsNum.ninf else if b < 0 then JsNum.pinf else JsNum.nan
  | JsNum.pinf, JsNum.pinf => JsNum.pinf
  | JsNum.pinf, JsNum.ninf => JsNum.ninf
  | JsNum.ninf, JsNum.pinf => JsNum.ninf
  | JsNum.ninf, JsNum.ninf => JsNum.pinf

/-- IEEE division on the special-value model (`x / 0 = ±∞` for `x ≠ 0`,
`0 / 0 = NaN`, finite `/ ±∞ = 0`). -/
def divJ : JsNum → JsNum → JsNum
  | JsNum.nan, _ => JsNum.nan
  | _, JsNum.nan => JsNum.nan
  | JsNum.num a, JsNum.num b =>
    if b = 0 then
      if 0 < a then JsNum.pinf else if a < 0 then JsNum.ninf else JsNum.nan
    else JsNum.num (a / b)
  | JsNum.num _, JsNum.pinf => JsNum.num 0
  | JsNum.num _, JsNum.ninf => JsNum.num 0
  | JsNum.pinf, JsNum.num b => if b < 0 then JsNum.ninf else JsNum.pinf
  | JsNum.ninf, JsNum.num b => if b < 0 then JsNum.pinf else JsNum.ninf
  | JsNum.pinf, _ => JsNum.nan
  | JsNum.ninf, _ => JsNum.nan

/-- IEEE `<` on the special-value model: any comparison with `NaN` is
false. -/
def ltJ : JsNum → JsNum → Bool
  | JsNum.nan, _ => false
  | _, JsNum.nan => false
  | JsNum.num a, JsNum.num b => decide (a < b)
  | JsNum.num _, JsNum.pinf => true
  | JsNum.num _, JsNum.ninf => false
  | JsNum.pinf, _ => false
  | JsNum.ninf, JsNum.ninf => false
  | JsNum.ninf, _ => true

/-- The exact square root of a rational, when it is rational (the candidate
built from `Nat.sqrt` is verified by squaring). -/
def ratSqrt (q : ℚ) : Option ℚ :=
  let r : ℚ := (Nat.sqrt q.num.toNat : ℚ) / (Nat.sqrt q.den : ℚ)
  if r * r = q then some r else none

/-- JS `Math.hypot` on the special-value model: any infinite argument gives
`+∞` (even against `NaN`), otherwise `NaN` propagates, otherwise the exact
square root of the sum of squares (or `none` when it is irrational and
hence outside the exact model). -/
def hypotJ : JsNum → JsNum → Option JsNum
  | JsNum.pinf, _ => some JsNum.pinf
  | JsNum.ninf, _ => some JsNum.pinf
  | _, JsNum.pinf => some JsNum.pinf
  | _, JsNum.ninf => some JsNum.pinf
  | JsNum.nan, _ => some JsNum.nan
  | _, JsNum.nan => some JsNum.nan
  | JsNum.num a, JsNum.num b => (ratSqrt (a * a + b * b)).map JsNum.num

/-- JS values in the exact model; `none` marks a finite value that exact
rational arithmetic cannot represent. -/
abbrev JQ : Type := Option JsNum

def jq (q : ℚ) : JQ := some (JsNum.num q)

def jadd : JQ → JQ → JQ
  | some a, some b => some (addJ a b)
  | _, _ => none

def jsub : JQ → JQ → JQ
  | some a, some b => some (subJ a b)
  | _, _ => none

def jmul : JQ → JQ → JQ
  | some a, some b => some (mulJ a b)
  | _, _ => none

def jdiv : JQ → JQ → JQ
  | some a, some b => some (divJ a b)
  | _, _ => none

def jlt : JQ → JQ → Option Bool
  | some a, some b => some (ltJ a b)
  | _, _ => none

def jhypot : JQ → JQ → JQ
  | some a, some b => hypotJ a b
  | _, _ => none

/-- Source `dist([x0,y0],[x1,y1]) = Math.hypot(x1-x0, y1-y0)` from `utils/2d.js`,
on the JS-number model. -/
def distJs (p0 p1 : Point) : JQ :=
  jhypot (jsub (jq p1.1) (jq p0.1)) (jsub (jq p1.2) (jq p0.2))

/-- The scale factor `1 / vlen` of `distToSegment` (`vlen = dist(a, b)`). -/
def dtsScale (a b : Point) : JQ := jdiv (jq 1) (distJs a b)

/-- First component of `vnorm = scale(v, 1/vlen)` in `distToSegment`. -/
def dtsVn1 (a b : Point) : JQ := jmul (jsub (jq b.1) (jq a.1)) (dtsScale a b)

/-- Second component of `vnorm = scale(v, 1/vlen)` in `distToSegment`. -/
def dtsVn2 (a b : Point) : JQ := jmul (jsub (jq b.2) (jq a.2)) (dtsScale a b)

/-- The projection parameter `t = dot(vnorm, ap)` of `distToSegment`. -/
def dtsT (p a b : Point) : JQ :=
  jadd (jmul (dtsVn1 a b) (jsub (jq p.1) (jq a.1)))
    (jmul (dtsVn2 a b) (jsub (jq p.2) (jq a.2)))

/-- A JS `if (cond) return x;` step on the model: an unrepresentable
condition propagates `none`; otherwise take the branch. -/
def jBranch (c : Option Bool) (x y : JQ) : JQ :=
  match c with
  | none => none
  | some true => x
  | some false => y

/-- Source `distToSegment(p, a, b)` from `utils/2d.js`, translated operation by
operation onto the JS-number model: `v = b - a`, `vlen = dist(a, b)`,
`vnorm = v * (1 / vlen)`, `ap = p - a`, `t = dot(vnorm, ap)`, then the
clamped cases `t < 0` (distance to `a`), `t > vlen` (distance to `b`),
else `len(ap - vnorm * t)`. -/
def distToSegmentJs (p a b : Point) : JQ :=
  jBranch (jlt (dtsT p a b) (jq 0)) (distJs p a)
    (jBranch (jlt (distJs a b) (dtsT p a b)) (distJs p b)
      (jhypot (jsub (jsub (jq p.1) (jq a.1)) (jmul (dtsVn1 a b) (dtsT p a b)))
        (jsub (jsub (jq p.2) (jq a.2)) (jmul (dtsVn2 a b) (dtsT p a b)))))

/-- Componentwise vector addition (`vec2d.add`). -/
def ptAdd (p q : Point) : Point := (p.1 + q.1, p.2 + q.2)

/-- Componentwise vector subtraction (`vec2d.sub`). -/
def ptSub (p q : Point) : Point := (p.1 - q.1, p.2 - q.2)

/-- Componentwise vector negation. -/
def ptNeg (p : Point) : Point := (-p.1, -p.2)

/-- Source `dragCircleCenter(delta, circle)`: the circle anchors are the pair
`(center, control)`; the delta is added to both. -/
def dragCircleCenter (delta : Point) (c : Point × Point) : Point × Point :=
  (ptAdd c.1 delta, ptAdd c.2 delta)

/-- The radius recomputation `circle.radius = vec2d.len(vec2d.sub(
circle.control, circle.center))` from `updateInfo` / `updateRadius`, on the
JS-number model. -/
def updateRadius (c : Point × Point) : JQ :=
  jhypot (jq (ptSub c.2 c.1).1) (jq (ptSub c.2 c.1).2)

/-- Rectangle anchors: index 0 is the center, indices 1–4 the four side
midpoints (`rectangle.anchors = [center].concat(midPoints)`). -/
abbrev RectAnchors : Type := Fin 5 → Point

/-- Source `dragRectangleCenter(delta, rectangle)` (and the identical `dragBase`):
the delta is added to the center and to all four midpoints. -/
def dragRectangleCenter (delta : Point) (A : RectAnchors) : RectAnchors :=
  fun i => ptAdd (A i) delta

/-- Source `createRectangle(rectangle)`: the four corners derived from the center
and midpoints 0, 1, 2 (indices 1, 2, 3 of the anchors array):
`delta = midPoints[1] - center`, corners `midPoints[0] ± delta` and
`midPoints[2] ∓ delta`. -/
def createRectangle (A : RectAnchors) : List Point :=
  [ptAdd (A 1) (ptSub (A 2) (A 0)), ptSub (A 1) (ptSub (A 2) (A 0)),
   ptSub (A 3) (ptSub (A 2) (A 0)), ptAdd (A 3) (ptSub (A 2) (A 0))]

/-- Strict convexity in counter-clockwise (positive cross) orientation:
at least 3 vertices, and every vertex lies strictly on the positive side
of every edge it does not belong to. -/
def ConvexPos (P : List Point) : Prop :=
  3 ≤ P.length ∧ ∀ i < P.length, ∀ j < P.length,
    j ≠ i → j ≠ (i + 1) % P.length →
      0 < cross (vtx P i) (vtx P (i + 1)) (vtx P j)

/-- Reflection about the x-axis (negate y); used to reduce clockwise
polygons to counter-clockwise ones. -/
def rPt (p : Point) : Point := (p.1, -p.2)

/-- Reflection of a polygon about the x-axis. -/
def rP (P : List Point) : List Point := P.map rPt

/-- A strictly convex polygon, in either orientation. -/
def StrictlyConvex (P : List Point) : Prop := ConvexPos P ∨ ConvexPos (rP P)

/-- The point lies strictly on the positive side of every edge (the strict
interior of a counter-clockwise convex polygon, as the intersection of the
open half-planes bounded by the edge lines). -/
def insidePos (P : List Point) (p : Point) : Prop :=
  ∀ i < P.length, 0 < cross (vtx P i) (vtx P (i + 1)) p

/-- Strictly inside a convex polygon of either orientation: strictly on
the inner side of every edge line. -/
def strictlyInside (P : List Point) (p : Point) : Prop :=
  insidePos P p ∨ insidePos (rP P) (rPt p)

/-- Strictly outside a convex polygon: on the strictly wrong side of some
edge line (the cross products have both signs; for a strictly convex
polygon the all-wrong-sign combination is impossible, so this captures
exactly the complement of the closed polygon). -/
def strictlyOutside (P : List Point) (p : Point) : Prop :=
  (∃ i < P.length, cross (vtx P i) (vtx P (i + 1)) p < 0) ∧
  (∃ i < P.length, 0 < cross (vtx P i) (vtx P (i + 1)) p)

/-- The sum of all edge cross products against a fixed query point. -/
def Csum (P : List Point) (p : Point) : ℚ :=
  ∑ i ∈ Finset.range P.length, cross (vtx P i) (vtx P (i + 1)) p

/-- The affine interpolation `u + t * (z - u)`. -/
def lerp (t : ℚ) (u z : Point) : Point :=
  (u.1 + t * (z.1 - u.1), u.2 + t * (z.2 - u.2))

/-- The number of vertices of `R` that `pointInConvexPoly` reports inside
`S`. -/
def inCount (R S : List Point) : ℕ :=
  (List.range R.length).countP (fun j => pointInConvexPoly (vtx R j) S)

theorem det3_eq_cross (a b c : Point) : det3 a b c = cross a b c := by
  unfold det3 cross; ring

theorem sgn_abs_le_one (q : ℚ) : |sgn q| ≤ 1 := by
  unfold sgn; split_ifs <;> decide

theorem orient_abs_le_one (a b c : Point) : |orient a b c| ≤ 1 :=
  sgn_abs_le_one _

theorem sgn_zero : sgn 0 = 0 := by unfold sgn; norm_num

theorem orient_second_self (a b : Point) : orient a b a = 0 := by
  have h : det3 a b a = 0 := by unfold det3; ring
  rw [orient, h, sgn_zero]

theorem orient_third_self (a b : Point) : orient a b b = 0 := by
  have h : det3 a b b = 0 := by unfold det3; ring
  rw [orient, h, sgn_zero]

theorem one_le_abs_sub_iff (x y : ℤ) : 1 ≤ |x - y| ↔ x ≠ y := by
  constructor
  · intro h he; rw [he, sub_self, abs_zero] at h; omega
  · intro h; exact Int.one_le_abs (sub_ne_zero.mpr h)

/-- C4: `segmentsIntersect(a, b, c, d)` returns true iff
`orient(a,b,c) != orient(a,b,d)` and `orient(c,d,a) != orient(c,d,b)`. -/
theorem segmentsIntersect_iff_orient (a b c d : Point) :
    segmentsIntersect a b c d = true ↔
      (orient a b c ≠ orient a b d ∧ orient c d a ≠ orient c d b) := by
  simp [segmentsIntersect, one_le_abs_sub_iff]

/-- C10: the utility-module `segmentsIntersect` (absolute-difference form)
agrees with the demo-local `glvec2.segmentsIntersect` (inequality form) on
all inputs. -/
theorem segmentsIntersect_eq_glSegmentsIntersect (a b c d : Point) :
    segmentsIntersect a b c d = glSegmentsIntersect a b c d := by
  unfold segmentsIntersect glSegmentsIntersect
  congr 1 <;> rw [decide_eq_decide] <;> exact one_le_abs_sub_iff _ _

theorem abs_sub_ne_two {x y : ℤ} (h : x = 0 ∨ y = 0) (hx : |x| ≤ 1)
    (hy : |y| ≤ 1) : |x - y| ≠ 2 := by
  have hx' := abs_le.mp hx
  have hy' := abs_le.mp hy
  intro h2
  rcases (abs_eq (by norm_num : (0:ℤ) ≤ 2)).mp h2 with h3 | h3 <;>
    rcases h with h0 | h0 <;> omega

/-- C5: `segmentsIntersectProper` returns true only when both orientation
differences have absolute value 2, and returns false whenever the two
segments share an endpoint (in particular when they share only an
endpoint). -/
theorem segmentsIntersectProper_spec (a b c d : Point) :
    (segmentsIntersectProper a b c d = true →
      |orient a b c - orient a b d| = 2 ∧ |orient c d a - orient c d b| = 2) ∧
    ((a = c ∨ a = d ∨ b = c ∨ b = d) → segmentsIntersectProper a b c d = false) := by
  constructor
  · intro h; simpa [segmentsIntersectProper] using h
  · intro h
    have hzero : orient a b c = 0 ∨ orient a b d = 0 := by
      rcases h with rfl | rfl | rfl | rfl
      · exact Or.inl (orient_second_self _ _)
      · exact Or.inr (orient_second_self _ _)
      · exact Or.inl (orient_third_self _ _)
      · exact Or.inr (orient_third_self _ _)
    have hne : |orient a b c - orient a b d| ≠ 2 :=
      abs_sub_ne_two hzero (orient_abs_le_one a b c) (orient_abs_le_one a b d)
    unfold segmentsIntersectProper
    rw [decide_eq_false hne, Bool.false_and]

/-- C3: `convexPolysIntersect` reports the overlapping axis-aligned squares
`[[0,0],[2,0],[2,2],[0,2]]` and `[[1,1],[3,1],[3,3],[1,3]]` as intersecting
and the distant squares `[[0,0],[2,0],[2,2],[0,2]]` and
`[[10,10],[12,10],[12,12],[10,12]]` as not intersecting. -/
theorem convexPolysIntersect_scenarios :
    convexPolysIntersect [((0:ℚ), (0:ℚ)), (2, 0), (2, 2), (0, 2)]
      [((1:ℚ), (1:ℚ)), (3, 1), (3, 3), (1, 3)] = true ∧
    convexPolysIntersect [((0:ℚ), (0:ℚ)), (2, 0), (2, 2), (0, 2)]
      [((10:ℚ), (10:ℚ)), (12, 10), (12, 12), (10, 12)] = false := by
  constructor
  · norm_num [convexPolysIntersect, cpiOuter, cpiInner, pointInConvexPoly,
      picGuard, glSegmentsIntersect, vtx, List.range_succ, orient, det3, sgn]
  · norm_num [convexPolysIntersect, cpiOuter, cpiInner, pointInConvexPoly,
      picGuard, glSegmentsIntersect, vtx, List.range_succ, orient, det3, sgn]

/-- C7: `pointInPoly` reports `(1,1)` inside the triangle
`[[0,0],[2,0],[1,2]]` and `(5,5)` outside it; in general `pointInPoly`
returns true iff the counted number of boundary crossings of the rightward
ray from the query point is odd. -/
theorem pointInPoly_spec :
    pointInPoly (1, 1) [((0:ℚ), (0:ℚ)), (2, 0), (1, 2)] = true ∧
    pointInPoly (5, 5) [((0:ℚ), (0:ℚ)), (2, 0), (1, 2)] = false ∧
    ∀ (p : Point) (P : List Point),
      (pointInPoly p P = true ↔ pipCount p P % 2 = 1) := by
  refine ⟨?_, ?_, ?_⟩
  · norm_num [pointInPoly, pipCount, pipTerm, vtx, Finset.sum_range_succ,
      orient, det3, sgn]
  · norm_num [pointInPoly, pipCount, pipTerm, vtx, Finset.sum_range_succ,
      orient, det3, sgn]
  · intro p P
    simp [pointInPoly]

theorem jBranch_none (x y : JQ) : jBranch none x y = none := rfl

theorem jBranch_true (x y : JQ) : jBranch (some true) x y = x := rfl

theorem jBranch_false (x y : JQ) : jBranch (some false) x y = y := rfl

theorem ratSqrt_zero : ratSqrt 0 = some 0 := by
  unfold ratSqrt
  norm_num

theorem ratSqrt_one : ratSqrt 1 = some 1 := by
  unfold ratSqrt
  norm_num

theorem distJs_degenerate : distJs (2, 1) (2, 1) = some (JsNum.num 0) := by
  norm_num [distJs, jq, jsub, subJ, jhypot, hypotJ, ratSqrt_zero]

theorem dtsVn1_degenerate : dtsVn1 (2, 1) (2, 1) = some JsNum.nan := by
  have h1 : dtsScale (2, 1) (2, 1) = some JsNum.pinf := by
    norm_num [dtsScale, distJs_degenerate, jq, jdiv, divJ]
  norm_num [dtsVn1, h1, jq, jsub, subJ, jmul, mulJ]

theorem dtsVn2_degenerate : dtsVn2 (2, 1) (2, 1) = some JsNum.nan := by
  have h1 : dtsScale (2, 1) (2, 1) = some JsNum.pinf := by
    norm_num [dtsScale, distJs_degenerate, jq, jdiv, divJ]
  norm_num [dtsVn2, h1, jq, jsub, subJ, jmul, mulJ]

theorem dtsT_degenerate : dtsT (3, 1) (2, 1) (2, 1) = some JsNum.nan := by
  norm_num [dtsT, dtsVn1_degenerate, dtsVn2_degenerate, jq, jsub, subJ,
    jmul, mulJ, jadd, addJ]

/-- C6 (code bug): on the degenerate zero-length segment the JS code
divides by `vlen = 0`, producing `Infinity`, then `0 * Infinity = NaN`,
which poisons every later step: `distToSegment(p, a, a)` evaluates to
`NaN` and never equals `dist(p, a)` (here `dist((3,1),(2,1)) = 1`). -/
theorem distToSegment_degenerate_nan :
    distToSegmentJs (3, 1) (2, 1) (2, 1) = some JsNum.nan ∧
    distJs (3, 1) (2, 1) = some (JsNum.num 1) ∧
    (some JsNum.nan : JQ) ≠ some (JsNum.num 1) := by
  refine ⟨?_, ?_, by decide⟩
  · have hlt1 : jlt (dtsT (3, 1) (2, 1) (2, 1)) (jq 0) = some false := by
      rw [dtsT_degenerate]; rfl
    have hlt2 : jlt (distJs (2, 1) (2, 1)) (dtsT (3, 1) (2, 1) (2, 1))
        = some false := by
      rw [dtsT_degenerate, distJs_degenerate]; rfl
    have hm1 : jmul (dtsVn1 (2, 1) (2, 1)) (dtsT (3, 1) (2, 1) (2, 1))
        = some JsNum.nan := by
      rw [dtsVn1_degenerate, dtsT_degenerate]; rfl
    have hm2 : jmul (dtsVn2 (2, 1) (2, 1)) (dtsT (3, 1) (2, 1) (2, 1))
        = some JsNum.nan := by
      rw [dtsVn2_degenerate, dtsT_degenerate]; rfl
    rw [distToSegmentJs, hlt1, hlt2]
    simp only [distToSegmentJs, hlt1, hlt2, hm1, hm2, jBranch_false]
    rfl
  · norm_num [distJs, jq, jsub, jhypot, subJ, hypotJ, ratSqrt_one]

/-- C8: dragging a circle's center adds the same delta to center and
control point, and the recomputed radius is unchanged. -/
theorem dragCircleCenter_preserves_radius (delta : Point) (c : Point × Point) :
    dragCircleCenter delta c = (ptAdd c.1 delta, ptAdd c.2 delta) ∧
    updateRadius (dragCircleCenter delta c) = updateRadius c := by
  refine ⟨rfl, ?_⟩
  have h1 : (ptSub (dragCircleCenter delta c).2 (dragCircleCenter delta c).1).1
      = (ptSub c.2 c.1).1 := by
    simp only [dragCircleCenter, ptSub, ptAdd]
    ring
  have h2 : (ptSub (dragCircleCenter delta c).2 (dragCircleCenter delta c).1).2
      = (ptSub c.2 c.1).2 := by
    simp only [dragCircleCenter, ptSub, ptAdd]
    ring
  rw [updateRadius, h1, h2, updateRadius]

/-- C9: dragging a rectangle's center by `d` and then by `-d` restores all
five anchors, and hence the four derived corners. -/
theorem dragRectangleCenter_roundTrip (d : Point) (A : RectAnchors) :
    dragRectangleCenter (ptNeg d) (dragRectangleCenter d A) = A ∧
    createRectangle (dragRectangleCenter (ptNeg d) (dragRectangleCenter d A))
      = createRectangle A := by
  have h : dragRectangleCenter (ptNeg d) (dragRectangleCenter d A) = A := by
    funext i
    simp only [dragRectangleCenter, ptAdd, ptNeg]
    rw [Prod.ext_iff]
    constructor <;> [skip; skip] <;> dsimp <;> ring
  exact ⟨h, by rw [h]⟩

theorem cross_cyclic (a b c : Point) : cross a b c = cross b c a := by
  unfold cross; ring

theorem cross_self_mid (a b : Point) : cross a b a = 0 := by unfold cross; ring

theorem cross_self_pair (a c : Point) : cross a a c = 0 := by unfold cross; ring

theorem cross_self_last (a b : Point) : cross a b b = 0 := by unfold cross; ring

theorem cross_lerp (a b : Point) (t : ℚ) (u z : Point) :
    cross a b (lerp t u z) = cross a b u + t * (cross a b z - cross a b u) := by
  unfold cross lerp; ring

theorem cross_lerp_self (u z : Point) (t : ℚ) : cross u z (lerp t u z) = 0 := by
  unfold cross lerp; ring

theorem cross_lerp_pair (u z : Point) (al be : ℚ) :
    cross (lerp al u z) (lerp be u z) u = 0 := by
  unfold cross lerp; ring

theorem sgn_of_pos {q : ℚ} (h : 0 < q) : sgn q = 1 := by
  unfold sgn; rw [if_neg (by linarith), if_pos h]

theorem sgn_of_neg {q : ℚ} (h : q < 0) : sgn q = -1 := by
  unfold sgn; rw [if_pos h]

theorem sgn_eq_one_iff {q : ℚ} : sgn q = 1 ↔ 0 < q := by
  unfold sgn
  split_ifs with h1 h2
  · norm_num; linarith
  · norm_num; exact h2
  · norm_num; linarith [h2]

theorem sgn_eq_neg_one_iff {q : ℚ} : sgn q = -1 ↔ q < 0 := by
  unfold sgn
  split_ifs with h1 h2
  · norm_num; exact h1
  · norm_num; linarith
  · norm_num; linarith [h1]

theorem sgn_eq_zero_iff {q : ℚ} : sgn q = 0 ↔ q = 0 := by
  unfold sgn
  split_ifs with h1 h2
  · norm_num; linarith
  · norm_num; linarith
  · norm_num; linarith

theorem orient_eq_sgn_cross (a b c : Point) : orient a b c = sgn (cross a b c) := by
  rw [orient, det3_eq_cross]

theorem sum_vtx_shift (P : List Point) (f : Point → ℚ) :
    ∑ i ∈ Finset.range P.length, f (vtx P (i + 1)) =
      ∑ i ∈ Finset.range P.length, f (vtx P i) := by
  rcases Nat.eq_zero_or_pos P.length with h0 | hpos
  · simp [h0]
  · obtain ⟨m, hm⟩ : ∃ m, P.length = m + 1 := ⟨P.length - 1, by omega⟩
    rw [hm, Finset.sum_range_succ, Finset.sum_range_succ']
    congr 1
    unfold vtx
    rw [hm, Nat.mod_self, Nat.zero_mod]

theorem Csum_const (P : List Point) (p q : Point) : Csum P p = Csum P q := by
  have hx := sum_vtx_shift P (fun v => v.1)
  have hy := sum_vtx_shift P (fun v => v.2)
  unfold Csum
  rw [← sub_eq_zero, ← Finset.sum_sub_distrib]
  have hterm : ∀ i ∈ Finset.range P.length,
      cross (vtx P i) (vtx P (i + 1)) p - cross (vtx P i) (vtx P (i + 1)) q
      = (((vtx P (i + 1)).1 - (vtx P i).1) * (p.2 - q.2)
        - ((vtx P (i + 1)).2 - (vtx P i).2) * (p.1 - q.1)) := by
    intro i _
    unfold cross; ring
  rw [Finset.sum_congr rfl hterm, Finset.sum_sub_distrib]
  have h1 : ∑ i ∈ Finset.range P.length,
      ((vtx P (i + 1)).1 - (vtx P i).1) * (p.2 - q.2) = 0 := by
    rw [← Finset.sum_mul, Finset.sum_sub_distrib, hx, sub_self, zero_mul]
  have h2 : ∑ i ∈ Finset.range P.length,
      ((vtx P (i + 1)).2 - (vtx P i).2) * (p.1 - q.1) = 0 := by
    rw [← Finset.sum_mul, Finset.sum_sub_distrib, hy, sub_self, zero_mul]
  rw [h1, h2, sub_zero]

theorem vtx_length_eq_zero (P : List Point) (_h : 0 < P.length) :
    vtx P P.length = vtx P 0 := by
  unfold vtx
  rw [Nat.mod_self, Nat.zero_mod]

theorem Csum_pos_of_convexPos {P : List Point} (hP : ConvexPos P) (p : Point) :
    0 < Csum P p := by
  obtain ⟨h3, hconv⟩ := hP
  rw [Csum_const P p (vtx P 0)]
  unfold Csum
  apply Finset.sum_pos'
  · intro i hi
    have hi' := Finset.mem_range.mp hi
    by_cases h0 : i = 0
    · subst h0
      rw [cross_cyclic, cross_self_last]
    · by_cases hlast : i = P.length - 1
      · subst hlast
        have hn : P.length - 1 + 1 = P.length := by omega
        rw [hn, vtx_length_eq_zero P (by omega), cross_self_last]
      · apply le_of_lt
        apply hconv i hi' 0 (by omega)
        · omega
        · have : (i + 1) % P.length = i + 1 := Nat.mod_eq_of_lt (by omega)
          omega
  · refine ⟨1, Finset.mem_range.mpr (by omega), ?_⟩
    apply hconv 1 (by omega) 0 (by omega)
    · omega
    · have : (1 + 1) % P.length = 2 := Nat.mod_eq_of_lt (by omega)
      omega

theorem sgn_trichotomy (q : ℚ) : sgn q = 1 ∨ sgn q = 0 ∨ sgn q = -1 := by
  unfold sgn; split_ifs <;> simp

theorem pic_true_iff (p : Point) (P : List Point) :
    pointInConvexPoly p P = true ↔
      picGuard P = false ∧ ∀ i < P.length,
        orient (vtx P i) (vtx P (i + 1)) p = orient (vtx P 0) (vtx P 1) p := by
  unfold pointInConvexPoly
  split_ifs with hgt
  · simp only [Bool.false_eq_true, false_iff]
    intro hc
    rw [hgt] at hc
    exact absurd hc.1 (by simp)
  · have hg' : picGuard P = false := by simpa using hgt
    rw [List.all_eq_true]
    constructor
    · intro h
      refine ⟨hg', fun i hi => ?_⟩
      rcases Nat.eq_zero_or_pos i with rfl | hpos
      · rfl
      · obtain ⟨k, rfl⟩ : ∃ k, i = k + 1 := ⟨i - 1, by omega⟩
        have hk := h k (List.mem_range.mpr (by omega))
        simpa using hk
    · intro h x hx
      have hx' := List.mem_range.mp hx
      have := h.2 (x + 1) (by omega)
      simpa using this

theorem insidePos_of_pic {P : List Point} (hP : ConvexPos P) {p : Point}
    (h : pointInConvexPoly p P = true) : insidePos P p := by
  obtain ⟨hg, hall⟩ := (pic_true_iff p P).mp h
  rcases sgn_trichotomy (cross (vtx P 0) (vtx P 1) p) with ho | ho | ho
  · intro i hi
    have hi' := hall i hi
    rw [orient_eq_sgn_cross, orient_eq_sgn_cross, ho] at hi'
    exact sgn_eq_one_iff.mp hi'
  · exfalso
    have hz : Csum P p = 0 := by
      apply Finset.sum_eq_zero
      intro i hi
      have hi' := hall i (Finset.mem_range.mp hi)
      rw [orient_eq_sgn_cross, orient_eq_sgn_cross, ho] at hi'
      exact sgn_eq_zero_iff.mp hi'
    linarith [Csum_pos_of_convexPos hP p]
  · exfalso
    have hn : Csum P p < 0 := by
      have hlt : ∀ i ∈ Finset.range P.length,
          cross (vtx P i) (vtx P (i + 1)) p < 0 := by
        intro i hi
        have hi' := hall i (Finset.mem_range.mp hi)
        rw [orient_eq_sgn_cross, orient_eq_sgn_cross, ho] at hi'
        exact sgn_eq_neg_one_iff.mp hi'
      have hne : (Finset.range P.length).Nonempty :=
        ⟨0, Finset.mem_range.mpr (by have := hP.1; omega)⟩
      have hsum : ∑ i ∈ Finset.range P.length,
          cross (vtx P i) (vtx P (i + 1)) p < 0 := by
        have hs := Finset.sum_lt_sum_of_nonempty hne hlt
        simpa using hs
      exact hsum
    linarith [Csum_pos_of_convexPos hP p]

theorem pic_of_insidePos {P : List Point} (hg : picGuard P = false) {p : Point}
    (h : insidePos P p) : pointInConvexPoly p P = true := by
  rw [pic_true_iff]
  refine ⟨hg, fun i hi => ?_⟩
  rw [orient_eq_sgn_cross, orient_eq_sgn_cross, sgn_of_pos (h i hi),
    sgn_of_pos (h 0 (by omega))]

theorem pic_eq_false_of_neg {P : List Point} (hP : ConvexPos P) {p : Point}
    (h : ∃ i, i < P.length ∧ cross (vtx P i) (vtx P (i + 1)) p < 0) :
    pointInConvexPoly p P = false := by
  cases hb : pointInConvexPoly p P
  · rfl
  · exfalso
    obtain ⟨hg, hall⟩ := (pic_true_iff p P).mp hb
    obtain ⟨i, hi, hneg⟩ := h
    have ho : orient (vtx P 0) (vtx P 1) p = -1 := by
      rw [← hall i hi, orient_eq_sgn_cross]
      exact sgn_of_neg hneg
    have hn : Csum P p < 0 := by
      have hlt : ∀ j ∈ Finset.range P.length,
          cross (vtx P j) (vtx P (j + 1)) p < 0 := by
        intro j hj
        have hj' := hall j (Finset.mem_range.mp hj)
        rw [ho, orient_eq_sgn_cross] at hj'
        exact sgn_eq_neg_one_iff.mp hj'
      have hne : (Finset.range P.length).Nonempty :=
        ⟨0, Finset.mem_range.mpr (by have := hP.1; omega)⟩
      have hsum : ∑ j ∈ Finset.range P.length,
          cross (vtx P j) (vtx P (j + 1)) p < 0 := by
        have hs := Finset.sum_lt_sum_of_nonempty hne hlt
        simpa using hs
      exact hsum
    linarith [Csum_pos_of_convexPos hP p]

theorem vtx_mod (P : List Point) (i : ℕ) : vtx P (i % P.length) = vtx P i := by
  unfold vtx
  rw [Nat.mod_mod]

theorem cyc_prev_succ {n i : ℕ} (h2 : 2 ≤ n) (hi : i < n) :
    ((i + (n - 1)) % n + 1) % n = i := by
  rw [Nat.mod_add_mod]
  have he : i + (n - 1) + 1 = i + n := by omega
  rw [he, Nat.add_mod_right, Nat.mod_eq_of_lt hi]

theorem cyc_succ_ne_self {n i : ℕ} (h2 : 2 ≤ n) (hi : i < n) :
    (i + 1) % n ≠ i := by
  by_cases h : i + 1 < n
  · rw [Nat.mod_eq_of_lt h]; omega
  · have he : i + 1 = n := by omega
    rw [he, Nat.mod_self]; omega

theorem cyc_succ_ne_prev {n i : ℕ} (h3 : 3 ≤ n) (_hi : i < n) :
    (i + 1) % n ≠ (i + (n - 1)) % n := by
  intro h
  have hd : n ∣ (i + (n - 1)) - (i + 1) := (Nat.modEq_iff_dvd' (by omega)).mp h
  have he : (i + (n - 1)) - (i + 1) = n - 2 := by omega
  rw [he] at hd
  have := Nat.le_of_dvd (by omega) hd
  omega

theorem cyc_ne_succ_succ {n i : ℕ} (h3 : 3 ≤ n) (hi : i < n) :
    i ≠ ((i + 1) % n + 1) % n := by
  rw [Nat.mod_add_mod]
  intro h
  have h' : i % n = (i + 2) % n := by rw [Nat.mod_eq_of_lt hi]; exact h
  have hd : n ∣ (i + 2) - i := (Nat.modEq_iff_dvd' (by omega)).mp h'
  have he : (i + 2) - i = 2 := by omega
  rw [he] at hd
  have := Nat.le_of_dvd (by omega) hd
  omega

theorem exists_lerp_of_cross_eq_zero {a b x : Point} (hab : a ≠ b)
    (h : cross a b x = 0) : ∃ l : ℚ, x = lerp l a b := by
  by_cases hx : b.1 - a.1 = 0
  · have hy : b.2 - a.2 ≠ 0 := by
      intro hy
      exact hab (Prod.ext_iff.mpr ⟨by linarith, by linarith⟩).symm
    have hx1 : x.1 = a.1 := by
      unfold cross at h
      rw [hx, zero_mul, zero_sub, neg_eq_zero] at h
      rcases mul_eq_zero.mp h with h' | h'
      · exact absurd h' hy
      · linarith
    refine ⟨(x.2 - a.2) / (b.2 - a.2), ?_⟩
    unfold lerp
    rw [Prod.ext_iff]
    constructor
    · dsimp only
      rw [hx1]
      have hb1 : b.1 - a.1 = 0 := hx
      rw [hb1, mul_zero, add_zero]
    · dsimp only
      field_simp
  · refine ⟨(x.1 - a.1) / (b.1 - a.1), ?_⟩
    unfold lerp
    rw [Prod.ext_iff]
    constructor
    · dsimp only
      field_simp
    · dsimp only
      unfold cross at h
      field_simp
      ring_nf
      ring_nf at h
      nlinarith [h]

theorem lerp_param_zero {cu cz : ℚ} (hcu : 0 < cu) (hcz : cz ≤ 0) :
    cu + cu / (cu - cz) * (cz - cu) = 0 := by
  have hden : cu - cz ≠ 0 := by linarith
  field_simp
  ring

theorem lerp_param_nonneg_min {cu' cz' t : ℚ} (hcu' : 0 < cu') (hcz' : cz' ≤ 0)
    (hmt : t ≤ cu' / (cu' - cz')) (_ht0 : 0 ≤ t) :
    0 ≤ cu' + t * (cz' - cu') := by
  have hden' : 0 < cu' - cz' := by linarith
  rw [le_div_iff₀ hden'] at hmt
  nlinarith

theorem lerp_param_nonneg_pos {cu' cz' t : ℚ} (hcu' : 0 < cu') (hcz' : 0 < cz')
    (ht0 : 0 < t) (ht1 : t ≤ 1) : 0 ≤ cu' + t * (cz' - cu') := by
  nlinarith

/-- Detection lemma: if `u` is strictly inside a counter-clockwise strictly
convex polygon and `z` is not (some edge half-plane value is nonpositive),
then the segment `u-z` intersects some polygon edge according to the demo's
`segmentsIntersect` test. -/
theorem detect {P : List Point} (hP : ConvexPos P) {u z : Point}
    (hu : insidePos P u)
    (hz : ∃ i, i < P.length ∧ cross (vtx P i) (vtx P (i + 1)) z ≤ 0) :
    ∃ i, i < P.length ∧
      glSegmentsIntersect (vtx P i) (vtx P (i + 1)) u z = true := by
  obtain ⟨hn3, hconv⟩ := hP
  have hn1 : 0 < P.length := by omega
  have hSne : ((Finset.range P.length).filter
      (fun i => cross (vtx P i) (vtx P (i + 1)) z ≤ 0)).Nonempty := by
    obtain ⟨i, hi, hle⟩ := hz
    exact ⟨i, Finset.mem_filter.mpr ⟨Finset.mem_range.mpr hi, hle⟩⟩
  obtain ⟨i0, hi0mem, hmin⟩ := Finset.exists_min_image _ (fun i =>
    cross (vtx P i) (vtx P (i + 1)) u /
      (cross (vtx P i) (vtx P (i + 1)) u - cross (vtx P i) (vtx P (i + 1)) z))
    hSne
  have hi0r := Finset.mem_filter.mp hi0mem
  have hi0 : i0 < P.length := Finset.mem_range.mp hi0r.1
  have hcz : cross (vtx P i0) (vtx P (i0 + 1)) z ≤ 0 := hi0r.2
  have hcu : 0 < cross (vtx P i0) (vtx P (i0 + 1)) u := hu i0 hi0
  set t := cross (vtx P i0) (vtx P (i0 + 1)) u /
    (cross (vtx P i0) (vtx P (i0 + 1)) u - cross (vtx P i0) (vtx P (i0 + 1)) z)
    with htdef
  have hden : 0 < cross (vtx P i0) (vtx P (i0 + 1)) u
      - cross (vtx P i0) (vtx P (i0 + 1)) z := by linarith
  have ht0 : 0 < t := div_pos hcu hden
  have ht1 : t ≤ 1 := by
    rw [htdef, div_le_one hden]; linarith
  have hx0 : cross (vtx P i0) (vtx P (i0 + 1)) (lerp t u z) = 0 := by
    rw [cross_lerp, htdef]
    exact lerp_param_zero hcu hcz
  have hxnn : ∀ i, i < P.length →
      0 ≤ cross (vtx P i) (vtx P (i + 1)) (lerp t u z) := by
    intro i hi
    rw [cross_lerp]
    by_cases hsz : cross (vtx P i) (vtx P (i + 1)) z ≤ 0
    · have hiS : i ∈ (Finset.range P.length).filter
          (fun i => cross (vtx P i) (vtx P (i + 1)) z ≤ 0) :=
        Finset.mem_filter.mpr ⟨Finset.mem_range.mpr hi, hsz⟩
      have hm := hmin i hiS
      exact lerp_param_nonneg_min (hu i hi) hsz hm ht0.le
    · push_neg at hsz
      exact lerp_param_nonneg_pos (hu i hi) hsz ht0 ht1
  have hab : vtx P i0 ≠ vtx P (i0 + 1) := by
    intro he
    rw [he, cross_self_pair] at hcu
    exact lt_irrefl 0 hcu
  obtain ⟨l, hl⟩ := exists_lerp_of_cross_eq_zero hab hx0
  have hkn : (i0 + (P.length - 1)) % P.length < P.length := Nat.mod_lt _ hn1
  have hk1 : vtx P ((i0 + (P.length - 1)) % P.length + 1) = vtx P i0 := by
    have hc : ((i0 + (P.length - 1)) % P.length + 1) % P.length = i0 :=
      cyc_prev_succ (by omega) hi0
    calc vtx P ((i0 + (P.length - 1)) % P.length + 1)
        = vtx P (((i0 + (P.length - 1)) % P.length + 1) % P.length) :=
          (vtx_mod _ _).symm
      _ = vtx P i0 := by rw [hc]
  have hck := hxnn _ hkn
  rw [hk1] at hck
  have hconvk : 0 < cross (vtx P ((i0 + (P.length - 1)) % P.length))
      (vtx P i0) (vtx P (i0 + 1)) := by
    have hj : vtx P ((i0 + 1) % P.length) = vtx P (i0 + 1) := vtx_mod _ _
    have h := hconv ((i0 + (P.length - 1)) % P.length) hkn
      ((i0 + 1) % P.length) (Nat.mod_lt _ hn1)
      (cyc_succ_ne_prev hn3 hi0)
      (by rw [cyc_prev_succ (by omega) hi0]; exact cyc_succ_ne_self (by omega) hi0)
    rw [hk1, hj] at h
    exact h
  have hexpk : cross (vtx P ((i0 + (P.length - 1)) % P.length)) (vtx P i0)
      (lerp t u z)
      = l * cross (vtx P ((i0 + (P.length - 1)) % P.length)) (vtx P i0)
          (vtx P (i0 + 1)) := by
    rw [hl, cross_lerp, cross_self_last]
    ring
  have hl0 : 0 ≤ l := by
    by_contra hneg
    push_neg at hneg
    rw [hexpk] at hck
    nlinarith [hconvk]
  have hmn : (i0 + 1) % P.length < P.length := Nat.mod_lt _ hn1
  have hmb : vtx P ((i0 + 1) % P.length) = vtx P (i0 + 1) := vtx_mod _ _
  have hcm := hxnn _ hmn
  rw [hmb] at hcm
  have hconvm : 0 < cross (vtx P (i0 + 1))
      (vtx P ((i0 + 1) % P.length + 1)) (vtx P i0) := by
    have h := hconv ((i0 + 1) % P.length) hmn i0 hi0
      (Ne.symm (cyc_succ_ne_self (by omega) hi0))
      (cyc_ne_succ_succ hn3 hi0)
    rw [hmb] at h
    exact h
  have hexpm : cross (vtx P (i0 + 1)) (vtx P ((i0 + 1) % P.length + 1))
      (lerp t u z)
      = (1 - l) * cross (vtx P (i0 + 1)) (vtx P ((i0 + 1) % P.length + 1))
          (vtx P i0) := by
    rw [hl, cross_lerp, cross_self_mid]
    ring
  have hl1 : l ≤ 1 := by
    by_contra hgt
    push_neg at hgt
    rw [hexpm] at hcm
    nlinarith [hconvm]
  refine ⟨i0, hi0, ?_⟩
  have hfirst : orient (vtx P i0) (vtx P (i0 + 1)) u
      ≠ orient (vtx P i0) (vtx P (i0 + 1)) z := by
    rw [orient_eq_sgn_cross, orient_eq_sgn_cross, sgn_of_pos hcu]
    rcases lt_or_eq_of_le hcz with hlt | heq
    · rw [sgn_of_neg hlt]; decide
    · rw [heq, sgn_zero]; decide
  have hsecond : orient u z (vtx P i0) ≠ orient u z (vtx P (i0 + 1)) := by
    intro heq
    have hxline : cross u z (lerp t u z) = 0 := cross_lerp_self u z t
    have hcomb : cross u z (lerp t u z)
        = (1 - l) * cross u z (vtx P i0) + l * cross u z (vtx P (i0 + 1)) := by
      rw [hl, cross_lerp]; ring
    rcases sgn_trichotomy (cross u z (vtx P i0)) with h1 | h1 | h1
    · have ha : 0 < cross u z (vtx P i0) := sgn_eq_one_iff.mp h1
      have hb : 0 < cross u z (vtx P (i0 + 1)) := by
        apply sgn_eq_one_iff.mp
        rw [← orient_eq_sgn_cross, ← heq, orient_eq_sgn_cross]
        exact h1
      rcases lt_or_eq_of_le hl1 with hlt | heq1
      · nlinarith [hxline, hcomb, mul_pos (by linarith : (0:ℚ) < 1 - l) ha,
          mul_nonneg hl0 hb.le]
      · rw [heq1] at hcomb
        rw [hxline] at hcomb
        nlinarith [hb]
    · have ha0 : cross u z (vtx P i0) = 0 := sgn_eq_zero_iff.mp h1
      have hb0 : cross u z (vtx P (i0 + 1)) = 0 := by
        apply sgn_eq_zero_iff.mp
        rw [← orient_eq_sgn_cross, ← heq, orient_eq_sgn_cross]
        exact h1
      have huz : u ≠ z := by
        intro he
        rw [he] at hcu
        linarith
      obtain ⟨al, hal⟩ := exists_lerp_of_cross_eq_zero huz ha0
      obtain ⟨be, hbe⟩ := exists_lerp_of_cross_eq_zero huz hb0
      have hz0 : cross (vtx P i0) (vtx P (i0 + 1)) u = 0 := by
        rw [hal, hbe]
        exact cross_lerp_pair u z al be
      linarith
    · have ha : cross u z (vtx P i0) < 0 := sgn_eq_neg_one_iff.mp h1
      have hb : cross u z (vtx P (i0 + 1)) < 0 := by
        apply sgn_eq_neg_one_iff.mp
        rw [← orient_eq_sgn_cross, ← heq, orient_eq_sgn_cross]
        exact h1
      rcases lt_or_eq_of_le hl1 with hlt | heq1
      · nlinarith [hxline, hcomb, mul_pos (by linarith : (0:ℚ) < 1 - l)
          (neg_pos.mpr ha), mul_nonneg hl0 (neg_nonneg.mpr hb.le)]
      · rw [heq1] at hcomb
        rw [hxline] at hcomb
        nlinarith [hb]
  unfold glSegmentsIntersect
  simp only [Bool.and_eq_true, decide_eq_true_eq]
  exact ⟨hfirst, hsecond⟩

theorem pic_step {P R : List Point} (hP : ConvexPos P)
    (H : ∀ i, i < P.length → ∀ j, j < R.length →
      glSegmentsIntersect (vtx P i) (vtx P (i + 1)) (vtx R j) (vtx R (j + 1))
        = false)
    {j : ℕ} (hj : j < R.length)
    (hu : pointInConvexPoly (vtx R j) P = true) :
    pointInConvexPoly (vtx R (j + 1)) P = true := by
  have hg : picGuard P = false := ((pic_true_iff _ _).mp hu).1
  have hin : insidePos P (vtx R j) := insidePos_of_pic hP hu
  apply pic_of_insidePos hg
  by_contra hnot
  unfold insidePos at hnot
  push_neg at hnot
  obtain ⟨i, hi, hle⟩ := hnot
  obtain ⟨i', hi', hseg⟩ := detect hP hin ⟨i, hi, hle⟩
  have := H i' hi' j hj
  rw [hseg] at this
  exact absurd this (by decide)

theorem pic_all_of_exists {P R : List Point} (hP : ConvexPos P)
    (hR1 : 0 < R.length)
    (H : ∀ i, i < P.length → ∀ j, j < R.length →
      glSegmentsIntersect (vtx P i) (vtx P (i + 1)) (vtx R j) (vtx R (j + 1))
        = false)
    (hex : ∃ j, j < R.length ∧ pointInConvexPoly (vtx R j) P = true) :
    ∀ j, j < R.length → pointInConvexPoly (vtx R j) P = true := by
  obtain ⟨j0, hj0, hpj0⟩ := hex
  have hstep : ∀ k : ℕ,
      pointInConvexPoly (vtx R ((j0 + k) % R.length)) P = true := by
    intro k
    induction k with
    | zero =>
      have he : (j0 + 0) % R.length = j0 := by
        rw [Nat.add_zero, Nat.mod_eq_of_lt hj0]
      rw [he]
      exact hpj0
    | succ k ih =>
      have hlt : (j0 + k) % R.length < R.length := Nat.mod_lt _ hR1
      have hs := pic_step hP H hlt ih
      have hv : vtx R ((j0 + k) % R.length + 1)
          = vtx R ((j0 + (k + 1)) % R.length) := by
        unfold vtx
        congr 1
        rw [Nat.mod_add_mod, Nat.mod_mod]
        congr 1
      rw [hv] at hs
      exact hs
  intro j hj
  have hk := hstep (R.length - j0 + j)
  have he : (j0 + (R.length - j0 + j)) % R.length = j := by
    have h1 : j0 + (R.length - j0 + j) = j + R.length := by omega
    rw [h1, Nat.add_mod_right, Nat.mod_eq_of_lt hj]
  rw [he] at hk
  exact hk

theorem cpiInner_eq {P Q : List Point} {p q : Point} {js : List ℕ}
    (H : ∀ j ∈ js, glSegmentsIntersect p q (vtx Q j) (vtx Q (j + 1)) = false) :
    cpiInner P Q p q js
      = some (js.countP (fun j => pointInConvexPoly (vtx Q j) P)) := by
  induction js with
  | nil => rfl
  | cons j js ih =>
    have hj := H j (List.mem_cons_self _ _)
    rw [cpiInner, hj]
    simp only [Bool.false_eq_true, if_false]
    rw [ih (fun x hx => H x (List.mem_cons_of_mem _ hx))]
    rw [List.countP_cons]
    show some ((if pointInConvexPoly (vtx Q j) P = true then 1 else 0)
        + js.countP (fun j => pointInConvexPoly (vtx Q j) P))
      = some (js.countP (fun j => pointInConvexPoly (vtx Q j) P)
        + if pointInConvexPoly (vtx Q j) P = true then 1 else 0)
    rw [Nat.add_comm]

theorem cpiOuter_eq {P Q : List Point} {is : List ℕ}
    (H : ∀ i, i < P.length → ∀ j, j < Q.length →
      glSegmentsIntersect (vtx P i) (vtx P (i + 1)) (vtx Q j) (vtx Q (j + 1))
        = false)
    (his : ∀ i ∈ is, i < P.length) :
    cpiOuter P Q is = some (is.length * inCount Q P,
      is.countP (fun i => pointInConvexPoly (vtx P i) Q)) := by
  induction is with
  | nil => simp [cpiOuter]
  | cons i is ih =>
    have hin : cpiInner P Q (vtx P i) (vtx P (i + 1)) (List.range Q.length)
        = some (inCount Q P) := by
      apply cpiInner_eq
      intro j hj
      exact H i (his i (List.mem_cons_self _ _)) j (List.mem_range.mp hj)
    rw [cpiOuter, hin, ih (fun x hx => his x (List.mem_cons_of_mem _ hx))]
    show some (inCount Q P + is.length * inCount Q P,
      (if pointInConvexPoly (vtx P i) Q = true then 1 else 0)
        + is.countP (fun i => pointInConvexPoly (vtx P i) Q))
      = some ((i :: is).length * inCount Q P,
        (i :: is).countP (fun i => pointInConvexPoly (vtx P i) Q))
    rw [List.countP_cons, List.length_cons]
    congr 1
    rw [Prod.ext_iff]
    constructor
    · dsimp only
      ring
    · dsimp only
      exact Nat.add_comm _ _

theorem cpi_char {P Q : List Point}
    (H : ∀ i, i < P.length → ∀ j, j < Q.length →
      glSegmentsIntersect (vtx P i) (vtx P (i + 1)) (vtx Q j) (vtx Q (j + 1))
        = false) :
    (convexPolysIntersect P Q = true ↔
      3 ≤ P.length * inCount Q P ∨ 3 ≤ inCount P Q) := by
  have ho := cpiOuter_eq H (fun i hi => List.mem_range.mp hi)
  rw [convexPolysIntersect, ho]
  have hlen : (List.range P.length).length = P.length := List.length_range _
  rw [hlen]
  simp [inCount]

theorem rPt_rPt (p : Point) : rPt (rPt p) = p :=
  Prod.ext_iff.mpr ⟨rfl, neg_neg _⟩

theorem length_rP (P : List Point) : (rP P).length = P.length :=
  List.length_map _ _

theorem vtx_rP (P : List Point) (i : ℕ) : vtx (rP P) i = rPt (vtx P i) := by
  unfold vtx rP
  rw [List.length_map]
  rcases h : P[i % P.length]? with _ | v
  · rw [List.getD_eq_getElem?_getD, List.getElem?_map, h,
      List.getD_eq_getElem?_getD, h]
    simp [rPt]
  · rw [List.getD_eq_getElem?_getD, List.getElem?_map, h,
      List.getD_eq_getElem?_getD, h]
    simp

theorem cross_rPt (a b c : Point) :
    cross (rPt a) (rPt b) (rPt c) = - cross a b c := by
  unfold cross rPt
  dsimp only
  ring

theorem sgn_neg_arg (q : ℚ) : sgn (-q) = - sgn q := by
  rcases lt_trichotomy q 0 with h | h | h
  · rw [sgn_of_neg h, sgn_of_pos (by linarith : 0 < -q)]
    norm_num
  · rw [h, neg_zero, sgn_zero]
    norm_num
  · rw [sgn_of_pos h, sgn_of_neg (by linarith : -q < 0)]

theorem orient_rPt (a b c : Point) :
    orient (rPt a) (rPt b) (rPt c) = - orient a b c := by
  rw [orient_eq_sgn_cross, orient_eq_sgn_cross, cross_rPt, sgn_neg_arg]

theorem glSegInt_rPt (a b c d : Point) :
    glSegmentsIntersect (rPt a) (rPt b) (rPt c) (rPt d)
      = glSegmentsIntersect a b c d := by
  unfold glSegmentsIntersect
  rw [orient_rPt, orient_rPt, orient_rPt, orient_rPt]
  congr 1 <;> rw [decide_eq_decide] <;> exact not_congr neg_inj

theorem glSegInt_comm (a b c d : Point) :
    glSegmentsIntersect a b c d = glSegmentsIntersect c d a b := by
  unfold glSegmentsIntersect
  rw [Bool.and_comm]

theorem picGuard_rP (P : List Point) : picGuard (rP P) = picGuard P := by
  unfold picGuard
  rw [length_rP]
  have hfx : (fun i => decide ((vtx (rP P) 0).1 = (vtx (rP P) (i + 1)).1))
      = (fun i => decide ((vtx P 0).1 = (vtx P (i + 1)).1)) := by
    funext i
    rw [vtx_rP, vtx_rP]
    rfl
  have hfy : (fun i => decide ((vtx (rP P) 0).2 = (vtx (rP P) (i + 1)).2))
      = (fun i => decide ((vtx P 0).2 = (vtx P (i + 1)).2)) := by
    funext i
    rw [vtx_rP, vtx_rP]
    rw [decide_eq_decide]
    exact neg_inj
  rw [hfx, hfy]

theorem pic_rP (p : Point) (P : List Point) :
    pointInConvexPoly (rPt p) (rP P) = pointInConvexPoly p P := by
  unfold pointInConvexPoly
  rw [picGuard_rP, length_rP]
  have hfun : (fun i => decide (orient (vtx (rP P) (i + 1)) (vtx (rP P) (i + 2))
        (rPt p) = orient (vtx (rP P) 0) (vtx (rP P) 1) (rPt p)))
      = (fun i => decide (orient (vtx P (i + 1)) (vtx P (i + 2)) p
        = orient (vtx P 0) (vtx P 1) p)) := by
    funext i
    rw [vtx_rP, vtx_rP, vtx_rP, vtx_rP, orient_rPt, orient_rPt]
    rw [decide_eq_decide]
    exact neg_inj
  rw [hfun]

theorem pic_all_of_exists' {P R : List Point} (hP : StrictlyConvex P)
    (hR1 : 0 < R.length)
    (H : ∀ i, i < P.length → ∀ j, j < R.length →
      glSegmentsIntersect (vtx P i) (vtx P (i + 1)) (vtx R j) (vtx R (j + 1))
        = false)
    (hex : ∃ j, j < R.length ∧ pointInConvexPoly (vtx R j) P = true) :
    ∀ j, j < R.length → pointInConvexPoly (vtx R j) P = true := by
  rcases hP with hpos | hneg
  · exact pic_all_of_exists hpos hR1 H hex
  · have hR1' : 0 < (rP R).length := by rw [length_rP]; exact hR1
    have H' : ∀ i, i < (rP P).length → ∀ j, j < (rP R).length →
        glSegmentsIntersect (vtx (rP P) i) (vtx (rP P) (i + 1))
          (vtx (rP R) j) (vtx (rP R) (j + 1)) = false := by
      intro i hi j hj
      rw [vtx_rP, vtx_rP, vtx_rP, vtx_rP, glSegInt_rPt]
      rw [length_rP] at hi hj
      exact H i hi j hj
    have hex' : ∃ j, j < (rP R).length ∧
        pointInConvexPoly (vtx (rP R) j) (rP P) = true := by
      obtain ⟨j, hj, hpj⟩ := hex
      refine ⟨j, by rw [length_rP]; exact hj, ?_⟩
      rw [vtx_rP, pic_rP]
      exact hpj
    have hall := pic_all_of_exists hneg hR1' H' hex'
    intro j hj
    have hj' := hall j (by rw [length_rP]; exact hj)
    rw [vtx_rP, pic_rP] at hj'
    exact hj'

theorem strictlyConvex_length {P : List Point} (hP : StrictlyConvex P) :
    3 ≤ P.length := by
  rcases hP with h | h
  · exact h.1
  · have := h.1
    rw [length_rP] at this
    exact this

/-- C2: for convex polygons whose edges do not intersect pairwise (per the
demo's `segmentsIntersect`), `convexPolysIntersect` returns true iff the
count of vertices of one polygon inside the other (per
`pointInConvexPoly`) reaches that polygon's full vertex count. -/
theorem convexPolysIntersect_containment (P Q : List Point)
    (hP : StrictlyConvex P) (hQ : StrictlyConvex Q)
    (H : ∀ i, i < P.length → ∀ j, j < Q.length →
      glSegmentsIntersect (vtx P i) (vtx P (i + 1)) (vtx Q j) (vtx Q (j + 1))
        = false) :
    (convexPolysIntersect P Q = true ↔
      (inCount Q P = Q.length ∨ inCount P Q = P.length)) := by
  have hlenP : 3 ≤ P.length := strictlyConvex_length hP
  have hlenQ : 3 ≤ Q.length := strictlyConvex_length hQ
  have Hsym : ∀ j, j < Q.length → ∀ i, i < P.length →
      glSegmentsIntersect (vtx Q j) (vtx Q (j + 1)) (vtx P i) (vtx P (i + 1))
        = false := by
    intro j hj i hi
    rw [glSegInt_comm]
    exact H i hi j hj
  rw [cpi_char H]
  constructor
  · rintro (h1 | h2)
    · left
      have hpos : 0 < inCount Q P := by
        by_contra h0
        push_neg at h0
        have hz : inCount Q P = 0 := by omega
        rw [hz, Nat.mul_zero] at h1
        omega
      have hex : ∃ j, j < Q.length ∧
          pointInConvexPoly (vtx Q j) P = true := by
        unfold inCount at hpos
        obtain ⟨j, hjmem, hj⟩ := List.countP_pos_iff.mp hpos
        exact ⟨j, List.mem_range.mp hjmem, hj⟩
      have hall := pic_all_of_exists' hP (by omega) H hex
      unfold inCount
      conv_rhs => rw [← List.length_range Q.length]
      rw [List.countP_eq_length]
      intro a ha
      exact hall a (List.mem_range.mp ha)
    · right
      have hpos : 0 < inCount P Q := by omega
      have hex : ∃ i, i < P.length ∧
          pointInConvexPoly (vtx P i) Q = true := by
        unfold inCount at hpos
        obtain ⟨i, himem, hi⟩ := List.countP_pos_iff.mp hpos
        exact ⟨i, List.mem_range.mp himem, hi⟩
      have hall := pic_all_of_exists' hQ (by omega) Hsym hex
      unfold inCount
      conv_rhs => rw [← List.length_range P.length]
      rw [List.countP_eq_length]
      intro a ha
      exact hall a (List.mem_range.mp ha)
  · rintro (h1 | h2)
    · left
      have h3 : 3 ≤ inCount Q P := by omega
      calc (3:ℕ) ≤ inCount Q P := h3
        _ ≤ P.length * inCount Q P := Nat.le_mul_of_pos_left _ (by omega)
    · right
      omega

/-- C1 (amended): for a strictly convex polygon, `pointInConvexPoly`
returns true on every strictly interior point provided the degeneracy
guard does not fire (the guard fires when some later vertex shares vertex
0's x-coordinate and some later vertex shares its y-coordinate, and then
the function returns false unconditionally); and it returns false on every
strictly exterior point, unconditionally. -/
theorem pointInConvexPoly_inside_outside (P : List Point) (p : Point)
    (hP : StrictlyConvex P) :
    (picGuard P = false → strictlyInside P p → pointInConvexPoly p P = true) ∧
    (strictlyOutside P p → pointInConvexPoly p P = false) := by
  constructor
  · intro hg hin
    rcases hin with hpos | hposR
    · exact pic_of_insidePos hg hpos
    · have hg' : picGuard (rP P) = false := by rw [picGuard_rP]; exact hg
      have h := pic_of_insidePos hg' hposR
      rw [pic_rP] at h
      exact h
  · intro hout
    rcases hP with hpos | hneg
    · exact pic_eq_false_of_neg hpos hout.1
    · obtain ⟨i, hi, hp⟩ := hout.2
      have h : pointInConvexPoly (rPt p) (rP P) = false := by
        apply pic_eq_false_of_neg hneg
        refine ⟨i, by rw [length_rP]; exact hi, ?_⟩
        rw [vtx_rP, vtx_rP, cross_rPt]
        linarith
      rw [pic_rP] at h
      exact h

/-- C1 counterexample: the axis-aligned unit-square-like polygon
`[[0,0],[2,0],[2,2],[0,2]]` is strictly convex and `(1,1)` is strictly
inside it, yet `pointInConvexPoly` returns false (the degeneracy guard
fires: vertex 3 shares vertex 0's x-coordinate and vertex 1 shares its
y-coordinate). -/
theorem pointInConvexPoly_guard_counterexample :
    StrictlyConvex [((0:ℚ), (0:ℚ)), (2, 0), (2, 2), (0, 2)] ∧
    strictlyInside [((0:ℚ), (0:ℚ)), (2, 0), (2, 2), (0, 2)] (1, 1) ∧
    pointInConvexPoly (1, 1) [((0:ℚ), (0:ℚ)), (2, 0), (2, 2), (0, 2)]
      = false := by
  refine ⟨Or.inl ⟨by norm_num, ?_⟩, Or.inl ?_, ?_⟩
  · intro i hi j hj h1 h2
    norm_num at hi hj
    interval_cases i <;> interval_cases j <;>
      norm_num [cross, vtx] at h1 h2 ⊢
  · intro i hi
    norm_num at hi
    interval_cases i <;> norm_num [cross, vtx]
  · norm_num [pointInConvexPoly, picGuard, vtx, List.range_succ]

theorem pointInConvexPoly_inside_outside_witness :
    pointInConvexPoly (2, 1) [((0:ℚ), (0:ℚ)), (4, 1), (1, 3)] = true ∧
    pointInConvexPoly (10, 10) [((0:ℚ), (0:ℚ)), (4, 1), (1, 3)] = false := by
  have hconv : StrictlyConvex [((0:ℚ), (0:ℚ)), (4, 1), (1, 3)] := by
    refine Or.inl ⟨by norm_num, ?_⟩
    intro i hi j hj h1 h2
    norm_num at hi hj
    interval_cases i <;> interval_cases j <;>
      norm_num [cross, vtx] at h1 h2 ⊢
  have hguard : picGuard [((0:ℚ), (0:ℚ)), (4, 1), (1, 3)] = false := by
    norm_num [picGuard, vtx, List.range_succ]
  have hin : strictlyInside [((0:ℚ), (0:ℚ)), (4, 1), (1, 3)] (2, 1) := by
    refine Or.inl ?_
    intro i hi
    norm_num at hi
    interval_cases i <;> norm_num [cross, vtx]
  have hout : strictlyOutside [((0:ℚ), (0:ℚ)), (4, 1), (1, 3)] (10, 10) := by
    constructor
    · refine ⟨1, by norm_num, ?_⟩
      norm_num [cross, vtx]
    · refine ⟨0, by norm_num, ?_⟩
      norm_num [cross, vtx]
  exact ⟨(pointInConvexPoly_inside_outside _ _ hconv).1 hguard hin,
    (pointInConvexPoly_inside_outside _ _ hconv).2 hout⟩

theorem convexPolysIntersect_containment_witness :
    convexPolysIntersect [((0:ℚ), (0:ℚ)), (10, 1), (4, 9)]
      [((3:ℚ), (2:ℚ)), (5, 3), (4, 5)] = true := by
  have hP : StrictlyConvex [((0:ℚ), (0:ℚ)), (10, 1), (4, 9)] := by
    refine Or.inl ⟨by norm_num, ?_⟩
    intro i hi j hj h1 h2
    norm_num at hi hj
    interval_cases i <;> interval_cases j <;>
      norm_num [cross, vtx] at h1 h2 ⊢
  have hQ : StrictlyConvex [((3:ℚ), (2:ℚ)), (5, 3), (4, 5)] := by
    refine Or.inl ⟨by norm_num, ?_⟩
    intro i hi j hj h1 h2
    norm_num at hi hj
    interval_cases i <;> interval_cases j <;>
      norm_num [cross, vtx] at h1 h2 ⊢
  have H : ∀ i, i < ([((0:ℚ), (0:ℚ)), (10, 1), (4, 9)] : List Point).length →
      ∀ j, j < ([((3:ℚ), (2:ℚ)), (5, 3), (4, 5)] : List Point).length →
      glSegmentsIntersect
        (vtx [((0:ℚ), (0:ℚ)), (10, 1), (4, 9)] i)
        (vtx [((0:ℚ), (0:ℚ)), (10, 1), (4, 9)] (i + 1))
        (vtx [((3:ℚ), (2:ℚ)), (5, 3), (4, 5)] j)
        (vtx [((3:ℚ), (2:ℚ)), (5, 3), (4, 5)] (j + 1)) = false := by
    intro i hi j hj
    norm_num at hi hj
    interval_cases i <;> interval_cases j <;>
      norm_num [glSegmentsIntersect, orient, det3, sgn, vtx]
  have hcount : inCount [((3:ℚ), (2:ℚ)), (5, 3), (4, 5)]
      [((0:ℚ), (0:ℚ)), (10, 1), (4, 9)]
      = ([((3:ℚ), (2:ℚ)), (5, 3), (4, 5)] : List Point).length := by
    norm_num [inCount, List.range_succ, pointInConvexPoly, picGuard, vtx,
      orient, det3, sgn]
  exact (convexPolysIntersect_containment _ _ hP hQ H).mpr (Or.inl hcount)

theorem segmentsIntersectProper_spec_witness :
    (|orient ((0:ℚ), (0:ℚ)) (2, 2) (0, 2) - orient ((0:ℚ), (0:ℚ)) (2, 2) (2, 0)| = 2 ∧
     |orient ((0:ℚ), (2:ℚ)) (2, 0) (0, 0) - orient ((0:ℚ), (2:ℚ)) (2, 0) (2, 2)| = 2) ∧
    segmentsIntersectProper ((0:ℚ), (0:ℚ)) (1, 0) (1, 0) (2, 3) = false := by
  constructor
  · apply (segmentsIntersectProper_spec (0, 0) (2, 2) (0, 2) (2, 0)).1
    norm_num [segmentsIntersectProper, orient, det3, sgn]
  · exact (segmentsIntersectProper_spec (0, 0) (1, 0) (1, 0) (2, 3)).2
      (Or.inr (Or.inr (Or.inl rfl)))
